import Mathlib

/-!
Verification development for the llama text-generation driver.

The definitions below are a shallow embedding of `llama/generation.py` and
`llama/tokenizer.py`.  External capabilities (the transformer model, the
sentencepiece tokenizer) are modelled as function parameters, matching the
narrow interfaces the code uses: the model is consulted only through
`forward(window, startPos)` (of which the code uses the last-position
logits), and the tokenizer only through `encode`/`decode`.  Probabilities
and logits are modelled with exact rationals.  All randomness
(softmax + top-p + multinomial in the `temperature > 0` branch of
`generate`) is bundled into an explicit sampler parameter; the nucleus
sampler itself (`sample_top_p`) is embedded separately and exactly.
-/

/-- Decidable equality for `Except`, used to evaluate the embedded
functions on concrete inputs. -/
instance {ε α : Type} [DecidableEq ε] [DecidableEq α] : DecidableEq (Except ε α) := fun x y =>
  match x, y with
  | .error a, .error b =>
    if h : a = b then .isTrue (by rw [h]) else .isFalse (by simp [h])
  | .ok a, .ok b =>
    if h : a = b then .isTrue (by rw [h]) else .isFalse (by simp [h])
  | .error _, .ok _ => .isFalse (by simp)
  | .ok _, .error _ => .isFalse (by simp)

namespace Llama

/-- Constant `B_INST` from generation.py line 66. -/
def B_INST : String := "[INST]"

/-- Constant `E_INST` from generation.py line 66. -/
def E_INST : String := "[/INST]"

/-- Constant `B_SYS` from generation.py line 67. -/
def B_SYS : String := "<<SYS>>\n"

/-- Constant `E_SYS` from generation.py line 67. -/
def E_SYS : String := "\n<</SYS>>\n\n"

/-- Constant `SPECIAL_TAGS` from generation.py line 69. -/
def SPECIAL_TAGS : List String := [B_INST, E_INST, "<<SYS>>", "<</SYS>>"]

/-- Constant `UNSAFE_ERROR` from generation.py line 70. -/
def UNSAFE_ERROR : String := "Error: special tags are not allowed as part of the prompt."

/-- A dialog message (generation.py `Message`): `role` and `content` are the
fields the encoder reads, via `.get(..., "")`, so both are modelled as plain
strings (a missing field reads as `""`).  The `dialog_id` back-fill is pure
bookkeeping that no observable behaviour depends on, and is omitted. -/
structure Message where
  role : String
  content : String
deriving DecidableEq

/-- Whether the character list `pat` occurs at the front of the second list. -/
def startsWithChars : List Char → List Char → Bool
  | [], _ => true
  | _ :: _, [] => false
  | c :: cs, d :: ds => c == d && startsWithChars cs ds

/-- Whether the character list `pat` occurs contiguously inside the second
list (Python's `pat in s` substring test). -/
def containsChars (pat : List Char) : List Char → Bool
  | [] => startsWithChars pat []
  | d :: ds => startsWithChars pat (d :: ds) || containsChars pat ds

/-- Python's `tag in content` substring containment on strings. -/
def strContains (hay pat : String) : Bool := containsChars pat.data hay.data

/-- The unsafe-content scan of `chat_completion` (generation.py lines 546-552):
`any(tag in msg.get("content","") for tag in SPECIAL_TAGS for msg in dialog)`. -/
def dialogUnsafe (d : List Message) : Bool :=
  SPECIAL_TAGS.any (fun tag => d.any (fun m => strContains m.content tag))

/-- The system-folding step of `chat_completion` (generation.py lines 553-573).
`none` models the `IndexError` Python raises when `dialog[0]` or `dialog[1]`
is accessed on a too-short dialog.  Note the faithful embedding of the
rebinding: Python rebinds `dialog` to the one-element merged list *before*
running `for dialog_sub in dialog[2::]`, so that loop iterates the slice
`[2:]` of the new singleton list, which is empty; the embedded
`folded ++ folded.drop 2` mirrors this. -/
def foldSystem (dialog : List Message) : Option (List Message) :=
  match dialog with
  | [] => none
  | m0 :: rest =>
    if m0.role = "system" then
      match rest with
      | [] => none
      | m1 :: _ =>
        let folded : List Message :=
          [⟨m1.role, B_SYS ++ m0.content ++ E_SYS ++ m1.content⟩]
        some (folded ++ folded.drop 2)
    else some (m0 :: rest)

/-- Every other element starting at position 0: Python `l[::2]`. -/
def everyOther {α : Type} : List α → List α
  | [] => []
  | [x] => [x]
  | x :: _ :: xs => x :: everyOther xs

/-- Python `l[::2]` applied to a dialog. -/
def evensOf (d : List Message) : List Message := everyOther d

/-- Python `l[1::2]` applied to a dialog. -/
def oddsOf (d : List Message) : List Message := everyOther (d.drop 1)

/-- Errors the chat-completion path can raise, one constructor per
`raise`/`assert`/runtime-error site. -/
inductive ChatError where
  /-- Python `IndexError` from `dialog[0]`, `dialog[1]` or `dialog[-1]` on a
  too-short dialog. -/
  | indexError
  /-- `DialogOrderError` from generation.py lines 578-580. -/
  | dialogOrder
  /-- `AssertionError` from the `dialog[-1]` role assert, lines 610-612. -/
  | lastNotUser
deriving DecidableEq

/-- The abstract tokenizer capability: sentencepiece `Encode` (wrapped by
`Tokenizer.encode` with its bos/eos flags) plus the two overloads of
sentencepiece `Decode` used by `Tokenizer.decode` (list input vs single-id
input). -/
structure TokCap where
  encode : String → Bool → Bool → List Int
  decodeList : List Int → String
  decodeSingle : Int → String

/-- `Tokenizer.decode` (tokenizer.py lines 77-98): the underlying decoder is
called on `t` itself when `len(t) > 1` and on `t[0]` otherwise; on the empty
list the `t[0]` access raises `IndexError`, modelled as `none`. -/
def tokenizerDecode (tok : TokCap) (t : List Int) : Option String :=
  if t.length > 1 then some (tok.decodeList t)
  else (t.head?).map tok.decodeSingle

/-- The dialog-to-prompt encoding step of `chat_completion` for one dialog
(generation.py lines 553-619): system folding, the order check exactly as
written (`not all(even is user) and all(odd is assistant)` — note the
Python operator precedence: `not` binds before `and`), the per-pair turn
encoding, the `dialog[-1]` role assert, and the trailing user-turn
encoding. -/
def encodeDialog (tok : TokCap) (dialog : List Message) : Except ChatError (List Int) :=
  match foldSystem dialog with
  | none => .error .indexError
  | some d =>
    if (¬ (evensOf d).all (fun m => m.role == "user")) ∧
        (oddsOf d).all (fun m => m.role == "assistant") then
      .error .dialogOrder
    else
      let pairToks : List (List Int) :=
        ((evensOf d).zip (oddsOf d)).map (fun pa =>
          tok.encode
            (B_INST ++ " " ++ pa.1.content.trim ++ " " ++ E_INST ++ " " ++
              pa.2.content.trim ++ " ")
            true true)
      let toks : List Int := pairToks.foldr List.append []
      match d.getLast? with
      | none => .error .indexError
      | some last =>
        if last.role = "user" then
          .ok (toks ++ tok.encode
            (B_INST ++ " " ++ last.content.trim ++ " " ++ E_INST) true false)
        else .error .lastNotUser

/-- Minimum of a list of naturals; Python's `min(...)` (the empty case is
guarded separately, mirroring Python's `ValueError`). -/
def listMin : List Nat → Nat
  | [] => 0
  | x :: xs => xs.foldr Nat.min x

/-- Maximum of a list of naturals; Python's `max(...)`. -/
def listMax : List Nat → Nat
  | [] => 0
  | x :: xs => xs.foldr Nat.max x

/-- The configuration `generate` reads from the model/tokenizer: the fields
of `self.model.params` and `self.tokenizer` it consults. -/
structure GenParams where
  maxSeqLen : Nat
  maxBatchSize : Nat
  padId : Int
  eosId : Int

/-- Failures of `generate`, in the order the code checks them: the
batch-size `assert` (line 296), Python's `ValueError` from `min()`/`max()`
over an empty batch (lines 298-299), and `PromptTooLongError` (line 302). -/
inductive GenError where
  | batchTooLarge
  | emptyBatch
  | promptTooLong
deriving DecidableEq

/-- The abstract Model Capability, the slice of `forward` the loop consumes:
given the newly revealed token window `tokens[:, prev_pos:cur_pos]` and the
start position `prev_pos`, return the last-position logits `logits[:, -1]`,
one row of vocabulary scores per sequence. -/
abbrev Forward := List (List Int) → Nat → List (List ℚ)

/-- The stochastic branch of the decoding step, bundling
`sample_top_p(softmax(logits[:, -1] / temperature), top_p)` together with
its multinomial randomness: from the temperature, `top_p` and the
last-position logits, one sampled token per sequence. -/
abbrev Sampler := ℚ → ℚ → List (List ℚ) → List Int

/-- Index of the first maximal element (torch.argmax over the last
dimension), accumulator form. -/
def argmaxAux : List ℚ → ℚ → Nat → Nat → Nat
  | [], _, _, bestIdx => bestIdx
  | x :: xs, best, cur, bestIdx =>
    if best < x then argmaxAux xs x (cur + 1) cur
    else argmaxAux xs best (cur + 1) bestIdx

/-- `torch.argmax(row, dim=-1)`: index of the first maximal logit, as the
token id it denotes. -/
def argmaxIdx (l : List ℚ) : Int :=
  match l with
  | [] => 0
  | x :: xs => (argmaxAux xs x 1 0 : Nat)

/-- The per-batch generation state owned by one `generate` call: the token
matrix, the per-sequence eos flags, the incremental-decoding cursor
`prev_pos`, and a count of Model Capability forward calls. -/
structure LoopSt where
  tokens : List (List Int)
  eosReached : List Bool
  prevPos : Nat
  calls : Nat

/-- One iteration of the decoding loop body (generation.py lines 330-358)
at position `cur`: forward over the window `[prevPos, cur)`, pick the next
token per sequence (sampler when `temperature > 0`, else argmax), keep the
original token where the prompt mask is set, write column `cur`, update the
eos flags, and advance the cursor. -/
def stepOnce (bsz : Nat) (fwd : Forward) (sampler : Sampler)
    (temperature topP : ℚ) (eosId : Int) (mask : List (List Bool))
    (cur : Nat) (st : LoopSt) : LoopSt :=
  let window := st.tokens.map (fun r => (r.drop st.prevPos).take (cur - st.prevPos))
  let logits := fwd window st.prevPos
  let sampled : List Int :=
    if 0 < temperature then sampler temperature topP logits
    else logits.map argmaxIdx
  let maskAt : Nat → Bool := fun k => (mask.getD k []).getD cur false
  let nextTok : List Int :=
    (List.range bsz).map (fun k =>
      if maskAt k then (st.tokens.getD k []).getD cur 0 else sampled.getD k 0)
  { tokens := (List.range bsz).map (fun k =>
      (st.tokens.getD k []).set cur (nextTok.getD k 0))
    eosReached := (List.range bsz).map (fun k =>
      st.eosReached.getD k false || (!maskAt k && (nextTok.getD k 0 == eosId)))
    prevPos := cur
    calls := st.calls + 1 }

/-- The decoding loop `for cur_pos in range(min_prompt_len, total_len)` with
its batch-wide early stop `if all(eos_reached): break`, as fuel recursion
(`fuel` counts the remaining positions up to `total_len`). -/
def genLoop (bsz : Nat) (fwd : Forward) (sampler : Sampler)
    (temperature topP : ℚ) (eosId : Int) (mask : List (List Bool)) :
    Nat → Nat → LoopSt → LoopSt
  | 0, _, st => st
  | fuel + 1, cur, st =>
    let st' := stepOnce bsz fwd sampler temperature topP eosId mask cur st
    if st'.eosReached.all (fun b => b) then st'
    else genLoop bsz fwd sampler temperature topP eosId mask fuel (cur + 1) st'

/-- The post-processing of one finished row (generation.py lines 366-379):
slice to `[start, promptLen + maxGen)` where `start` honours `echo`, then
truncate at the first end-of-sequence id if one occurs in the slice. -/
def postProcessRow (eosId : Int) (promptLen maxGen : Nat) (echo : Bool)
    (row : List Int) : List Int :=
  let start := if echo then 0 else promptLen
  let toks := (row.drop start).take (promptLen + maxGen - start)
  if eosId ∈ toks then toks.takeWhile (fun x => x != eosId) else toks

/-- The window length `total_len = min(max_seq_len, max_gen_len +
max_prompt_len)` (generation.py line 303). -/
def totalLenOf (P : GenParams) (promptTokens : List (List Int))
    (maxGenLen : Nat) : Nat :=
  Nat.min P.maxSeqLen (maxGenLen + listMax (promptTokens.map List.length))

/-- The initial token matrix: each row is its prompt padded with `pad_id`
to the window length (generation.py lines 306-310). -/
def initTokens (P : GenParams) (promptTokens : List (List Int))
    (maxGenLen : Nat) : List (List Int) :=
  promptTokens.map
    (fun t => t ++ List.replicate (totalLenOf P promptTokens maxGenLen - t.length) P.padId)

/-- The prompt-protection mask `input_text_mask = tokens != pad_id`
(generation.py line 319), computed from the initial matrix. -/
def promptMask (P : GenParams) (promptTokens : List (List Int))
    (maxGenLen : Nat) : List (List Bool) :=
  (initTokens P promptTokens maxGenLen).map (fun r => r.map (fun x => x != P.padId))

/-- The full decoding loop run of `generate`: initial state (including the
extra seeding forward pass when `min_prompt_len == total_len`, lines
320-327, counted in `calls`) followed by the loop over positions
`min_prompt_len` to `total_len - 1`. -/
def genRun (P : GenParams) (fwd : Forward) (sampler : Sampler)
    (promptTokens : List (List Int)) (maxGenLen : Nat)
    (temperature topP : ℚ) : LoopSt :=
  genLoop promptTokens.length fwd sampler temperature topP P.eosId
    (promptMask P promptTokens maxGenLen)
    (totalLenOf P promptTokens maxGenLen - listMin (promptTokens.map List.length))
    (listMin (promptTokens.map List.length))
    ⟨initTokens P promptTokens maxGenLen,
      List.replicate promptTokens.length false, 0,
      if listMin (promptTokens.map List.length)
          = totalLenOf P promptTokens maxGenLen then 1 else 0⟩

/-- `Llama.generate` (generation.py lines 244-402), without the
log-probability accounting (an output the embedded claims do not touch):
validation, token-matrix initialisation, the prompt mask
`tokens != pad_id`, the seeding forward pass when `min_prompt_len ==
total_len`, the decoding loop, and per-row post-processing.  The second
component counts Model Capability forward calls. -/
def generate (P : GenParams) (fwd : Forward) (sampler : Sampler)
    (promptTokens : List (List Int)) (maxGenLen : Nat)
    (temperature topP : ℚ) (echo : Bool) :
    Except GenError (List (List Int)) × Nat :=
  if promptTokens.length ≤ P.maxBatchSize then
    if promptTokens.length = 0 then (.error .emptyBatch, 0)
    else
      if listMax (promptTokens.map List.length) ≤ P.maxSeqLen then
        let stF := genRun P fwd sampler promptTokens maxGenLen temperature topP
        (.ok ((List.range promptTokens.length).map (fun i =>
          postProcessRow P.eosId (promptTokens.getD i []).length maxGenLen echo
            (stF.tokens.getD i []))), stF.calls)
      else (.error .promptTooLong, 0)
  else (.error .batchTooLarge, 0)

/-- Sequence a fallible function over a list, stopping at the first error
(the semantics of a Python loop that raises): the `Except` `mapM`. -/
def exceptMapM {α β ε : Type} (f : α → Except ε β) : List α → Except ε (List β)
  | [] => .ok []
  | a :: l =>
    match f a with
    | .error e => .error e
    | .ok b =>
      match exceptMapM f l with
      | .error e => .error e
      | .ok bs => .ok (b :: bs)

/-- Failures of the completion assemblers: a dialog-encoding error, a
`generate` error, or the `IndexError` inside `Tokenizer.decode` on an empty
token list. -/
inductive AsmError where
  | chat (e : ChatError)
  | gen (e : GenError)
  | decodeEmpty
deriving DecidableEq

/-- One chat result record: the `generation` message content the caller
receives (role is always `"assistant"` and is not modelled separately). -/
structure ChatPrediction where
  content : String
deriving DecidableEq

/-- `Llama.chat_completion` without log-probabilities (generation.py lines
492-669): per-dialog unsafe scan, dialog encoding (raising on the first bad
dialog), one batched `generate` call with `echo` left at its default
`False`, then result assembly in which an unsafe dialog's decoded content
is replaced by `UNSAFE_ERROR` (the conditional expression short-circuits,
so `decode` is not called for unsafe dialogs).  `max_gen_len = None`
defaults to `max_seq_len - 1`. -/
def chatCompletion (tok : TokCap) (fwd : Forward) (sampler : Sampler)
    (P : GenParams) (dialogs : List (List Message)) (maxGenLen : Option Nat)
    (temperature topP : ℚ) : Except AsmError (List ChatPrediction) :=
  let mg := maxGenLen.getD (P.maxSeqLen - 1)
  let unsafeFlags := dialogs.map dialogUnsafe
  match exceptMapM (fun d => (encodeDialog tok d).mapError AsmError.chat) dialogs with
  | .error e => .error e
  | .ok promptToks =>
    match (generate P fwd sampler promptToks mg temperature topP false).1 with
    | .error e => .error (.gen e)
    | .ok gen =>
      exceptMapM (fun tu =>
        if tu.2 then .ok ⟨UNSAFE_ERROR⟩
        else
          match tokenizerDecode tok tu.1 with
          | some s => .ok ⟨s⟩
          | none => .error .decodeEmpty) (gen.zip unsafeFlags)

/-- `Llama.text_completion` without log-probabilities (generation.py lines
405-489): encode each prompt with a begin marker only, one batched
`generate` call, decode each output row.  `max_gen_len = None` defaults to
`max_seq_len - 1`. -/
def textCompletion (tok : TokCap) (fwd : Forward) (sampler : Sampler)
    (P : GenParams) (prompts : List String) (maxGenLen : Option Nat)
    (temperature topP : ℚ) (echo : Bool) : Except AsmError (List String) :=
  let mg := maxGenLen.getD (P.maxSeqLen - 1)
  let promptToks := prompts.map (fun x => tok.encode x true false)
  match (generate P fwd sampler promptToks mg temperature topP echo).1 with
  | .error e => .error (.gen e)
  | .ok gen =>
    exceptMapM (fun t =>
      match tokenizerDecode tok t with
      | some s => .ok s
      | none => .error .decodeEmpty) gen



/-- Insert a (probability, original index) pair into a descending-sorted
list, keeping the sort descending. -/
def insertDesc (x : ℚ × Nat) : List (ℚ × Nat) → List (ℚ × Nat)
  | [] => [x]
  | y :: ys => if y.1 < x.1 then x :: y :: ys else y :: insertDesc x ys

/-- Descending insertion sort of (probability, original index) pairs:
`torch.sort(probs, descending=True)` returning values and indices. -/
def sortDescPairs (l : List (ℚ × Nat)) : List (ℚ × Nat) := l.foldr insertDesc []

/-- Pair each probability with its original index. -/
def withIdx (l : List ℚ) : List (ℚ × Nat) := l.zip (List.range l.length)

/-- `probs_sort`: the probabilities in descending order. -/
def probsSort (dist : List ℚ) : List ℚ := (sortDescPairs (withIdx dist)).map Prod.fst

/-- `probs_idx`: the sort permutation (original index of each sorted slot). -/
def probsIdx (dist : List ℚ) : List Nat := (sortDescPairs (withIdx dist)).map Prod.snd

/-- Running cumulative sums starting from `acc` (`torch.cumsum`). -/
def cumsumFrom (acc : ℚ) : List ℚ → List ℚ
  | [] => []
  | x :: xs => (acc + x) :: cumsumFrom (acc + x) xs

/-- `probs_sum = torch.cumsum(probs_sort, dim=-1)`. -/
def cumsum (l : List ℚ) : List ℚ := cumsumFrom 0 l

/-- The masking and zeroing step of `sample_top_p` (generation.py lines
690-691): `mask = probs_sum - probs_sort > p; probs_sort[mask] = 0.0`. -/
def maskedProbs (dist : List ℚ) (p : ℚ) : List ℚ :=
  List.zipWith (fun q s => if p < s - q then 0 else q)
    (probsSort dist) (cumsum (probsSort dist))

/-- The renormalisation step `probs_sort.div_(probs_sort.sum(...))`. -/
def renormed (dist : List ℚ) (p : ℚ) : List ℚ :=
  (maskedProbs dist p).map (fun q => q / (maskedProbs dist p).sum)

/-- Sorted rank `k` is a possible outcome of the `torch.multinomial` draw
exactly when its renormalised mass is positive. -/
def canDraw (dist : List ℚ) (p : ℚ) (k : Nat) : Prop :=
  0 < (renormed dist p).getD k 0

/-- The final `torch.gather(probs_idx, -1, next_token)`: the original token
id returned when sorted rank `k` is drawn. -/
def drawnToken (dist : List ℚ) (k : Nat) : Nat := (probsIdx dist).getD k 0

/-- The cumulative mass of the smallest prefix of the descending-sorted
distribution whose mass reaches `p` (the whole mass when no prefix does). -/
def smallestCoveringMass (dist : List ℚ) (p : ℚ) : ℚ :=
  ((cumsum (probsSort dist)).filter (fun s => decide (p ≤ s))).headD
    (probsSort dist).sum


/-- A `getD` read through `map`, in range. -/
theorem getD_map_lt {α β : Type} (f : α → β) (l : List α) (k : Nat)
    (d : α) (d' : β) (hk : k < l.length) :
    (l.map f).getD k d' = f (l.getD k d) := by
  rw [List.getD_eq_getElem (l.map f) d' (by simpa using hk),
    List.getD_eq_getElem l d hk, List.getElem_map]

/-- A `getD` read through `zipWith`, in range. -/
theorem getD_zipWith_lt {α β γ : Type} (f : α → β → γ) (l : List α)
    (m : List β) (k : Nat) (d : α) (d' : β) (d2 : γ) (hk : k < l.length)
    (hk' : k < m.length) :
    (List.zipWith f l m).getD k d2 = f (l.getD k d) (m.getD k d') := by
  rw [List.getD_eq_getElem (List.zipWith f l m) d2
      (by simp [List.length_zipWith]; omega),
    List.getD_eq_getElem l d hk, List.getD_eq_getElem m d' hk',
    List.getElem_zipWith]

/-- `cumsumFrom` preserves length. -/
theorem length_cumsumFrom (acc : ℚ) (l : List ℚ) :
    (cumsumFrom acc l).length = l.length := by
  induction l generalizing acc with
  | nil => rfl
  | cons x xs ih => simp [cumsumFrom, ih]

/-- The `k`-th cumulative sum is the sum of the first `k + 1` entries. -/
theorem cumsumFrom_getD (acc : ℚ) (l : List ℚ) (k : Nat)
    (hk : k < l.length) :
    (cumsumFrom acc l).getD k 0 = acc + (l.take (k + 1)).sum := by
  induction l generalizing acc k with
  | nil => simp at hk
  | cons x xs ih =>
    cases k with
    | zero => simp [cumsumFrom]
    | succ k =>
      have hk' : k < xs.length := by simpa using hk
      rw [cumsumFrom, List.getD_cons_succ, ih (acc + x) k hk',
        List.take_succ_cons, List.sum_cons]
      ring

/-- Inserting into a descending-sorted list is a permutation of consing. -/
theorem insertDesc_perm (x : ℚ × Nat) (l : List (ℚ × Nat)) :
    (insertDesc x l).Perm (x :: l) := by
  induction l with
  | nil => simp [insertDesc]
  | cons y ys ih =>
    simp only [insertDesc]
    by_cases h : y.1 < x.1
    · rw [if_pos h]
    · rw [if_neg h]
      exact (ih.cons y).trans (List.Perm.swap x y ys)

/-- The descending insertion sort permutes its input. -/
theorem sortDescPairs_perm (l : List (ℚ × Nat)) :
    (sortDescPairs l).Perm l := by
  induction l with
  | nil => simp [sortDescPairs]
  | cons x xs ih => exact (insertDesc_perm x _).trans (ih.cons x)

/-- The sorted probabilities are a permutation of the input distribution. -/
theorem probsSort_perm (dist : List ℚ) : (probsSort dist).Perm dist := by
  have h2 := (sortDescPairs_perm (withIdx dist)).map Prod.fst
  have h3 : (withIdx dist).map Prod.fst = dist :=
    List.map_fst_zip dist (List.range dist.length) (by simp)
  rw [h3] at h2
  simpa [probsSort] using h2

/-- The zeroing rule of `sample_top_p`, read entrywise: entry `k` of the
masked vector is zero exactly when the cumulative sum strictly before it
already exceeds `p`. -/
theorem maskedProbs_getD (dist : List ℚ) (p : ℚ) (k : Nat) :
    (maskedProbs dist p).getD k 0
      = if p < (cumsum (probsSort dist)).getD k 0 - (probsSort dist).getD k 0
        then 0 else (probsSort dist).getD k 0 := by
  by_cases hk : k < (probsSort dist).length
  · have hk' : k < (cumsum (probsSort dist)).length := by
      simpa [cumsum, length_cumsumFrom] using hk
    rw [maskedProbs, getD_zipWith_lt _ _ _ k 0 0 0 hk hk']
  · have hlen : (maskedProbs dist p).length ≤ k := by
      simp only [maskedProbs, List.length_zipWith]
      omega
    have h1 : (maskedProbs dist p).getD k 0 = 0 := List.getD_eq_default _ _ hlen
    have h2 : (probsSort dist).getD k 0 = 0 := List.getD_eq_default _ _ (by omega)
    have h3 : (cumsum (probsSort dist)).getD k 0 = 0 :=
      List.getD_eq_default _ _ (by simp [cumsum, length_cumsumFrom]; omega)
    rw [h1, h2, h3]
    simp

/-- The cumulative sum strictly before entry `k` of the sorted vector. -/
theorem cumsum_sub_self (dist : List ℚ) (k : Nat)
    (hk : k < (probsSort dist).length) :
    (cumsum (probsSort dist)).getD k 0 - (probsSort dist).getD k 0
      = ((probsSort dist).take k).sum := by
  rw [cumsum, cumsumFrom_getD 0 _ k hk, List.getD_eq_getElem _ 0 hk,
    List.sum_take_succ _ k hk]
  ring


/-- The seed of a max-fold is a lower bound of the fold. -/
theorem le_foldr_max (ys : List Nat) (a : Nat) : a ≤ ys.foldr Nat.max a := by
  induction ys generalizing a with
  | nil => exact Nat.le_refl a
  | cons z zs ih => exact Nat.le_trans (ih a) (Nat.le_max_right z _)

/-- Every element of a max-fold's list is bounded by the fold. -/
theorem mem_le_foldr_max (ys : List Nat) (a : Nat) :
    ∀ x ∈ ys, x ≤ ys.foldr Nat.max a := by
  induction ys generalizing a with
  | nil => intro x hx; simp at hx
  | cons z zs ih =>
    intro x hx
    rcases List.mem_cons.mp hx with rfl | hx
    · exact Nat.le_max_left x _
    · exact Nat.le_trans (ih a x hx) (Nat.le_max_right z _)

/-- `listMax` bounds every element of its list. -/
theorem le_listMax (l : List Nat) : ∀ x ∈ l, x ≤ listMax l := by
  cases l with
  | nil => intro x hx; simp at hx
  | cons y ys =>
    intro x hx
    rcases List.mem_cons.mp hx with rfl | hx
    · exact le_foldr_max ys x
    · exact mem_le_foldr_max ys y x hx

/-- Well-shapedness of the token matrix: one row per sequence, each row of
the full window length. -/
def RowsOk (bsz totalLen : Nat) (rows : List (List Int)) : Prop :=
  rows.length = bsz ∧ ∀ i < bsz, (rows.getD i []).length = totalLen

/-- A `getD` read of a `map` over `List.range`. -/
theorem getD_map_range {β : Type} (bsz : Nat) (f : Nat → β) (i : Nat)
    (d : β) (hi : i < bsz) :
    ((List.range bsz).map f).getD i d = f i := by
  rw [getD_map_lt f (List.range bsz) i 0 d (by simpa using hi),
    List.getD_eq_getElem _ 0 (by simpa using hi), List.getElem_range]

/-- One loop step keeps the token matrix well-shaped. -/
theorem stepOnce_rowsOk (bsz : Nat) (fwd : Forward) (sampler : Sampler)
    (temperature topP : ℚ) (eosId : Int) (mask : List (List Bool))
    (cur : Nat) (st : LoopSt) (totalLen : Nat)
    (h : RowsOk bsz totalLen st.tokens) :
    RowsOk bsz totalLen
      (stepOnce bsz fwd sampler temperature topP eosId mask cur st).tokens := by
  obtain ⟨hlen, hrow⟩ := h
  constructor
  · simp [stepOnce]
  · intro i hi
    rw [stepOnce]
    simp only
    rw [getD_map_range bsz _ i [] hi, List.length_set]
    exact hrow i hi

/-- The whole loop keeps the token matrix well-shaped. -/
theorem genLoop_rowsOk (bsz : Nat) (fwd : Forward) (sampler : Sampler)
    (temperature topP : ℚ) (eosId : Int) (mask : List (List Bool))
    (fuel : Nat) (totalLen : Nat) :
    ∀ (cur : Nat) (st : LoopSt), RowsOk bsz totalLen st.tokens →
    RowsOk bsz totalLen
      (genLoop bsz fwd sampler temperature topP eosId mask fuel cur st).tokens := by
  induction fuel with
  | zero => intro cur st h; exact h
  | succ fuel ih =>
    intro cur st h
    rw [genLoop]
    have hstep := stepOnce_rowsOk bsz fwd sampler temperature topP eosId mask
      cur st totalLen h
    by_cases hall :
        (stepOnce bsz fwd sampler temperature topP eosId mask cur
          st).eosReached.all (fun b => b) = true
    · simpa [hall] using hstep
    · simpa [hall] using ih (cur + 1) _ hstep

/-- The sliced row is no longer than the slice bounds allow. -/
theorem postProcessRow_length (eosId : Int) (promptLen maxGen : Nat)
    (echo : Bool) (row : List Int) :
    (postProcessRow eosId promptLen maxGen echo row).length
      ≤ Nat.min (promptLen + maxGen - (if echo then 0 else promptLen))
          (row.length - (if echo then 0 else promptLen)) := by
  rw [postProcessRow]
  have hbase :
      ((row.drop (if echo then 0 else promptLen)).take
        (promptLen + maxGen - (if echo then 0 else promptLen))).length
      ≤ Nat.min (promptLen + maxGen - (if echo then 0 else promptLen))
          (row.length - (if echo then 0 else promptLen)) := by
    simp [List.length_take, List.length_drop]
  by_cases hmem : eosId ∈ (row.drop (if echo then 0 else promptLen)).take
      (promptLen + maxGen - (if echo then 0 else promptLen))
  · rw [if_pos hmem]
    exact Nat.le_trans (List.Sublist.length_le (List.takeWhile_sublist _)) hbase
  · rw [if_neg hmem]
    exact hbase


/-- `generate` on a valid batch: explicit form of the ok result. -/
theorem generate_ok_form (P : GenParams) (fwd : Forward) (sampler : Sampler)
    (prompts : List (List Int)) (maxGen : Nat) (temp topP : ℚ) (echo : Bool)
    (hbsz : prompts.length ≤ P.maxBatchSize) (hz : ¬ prompts.length = 0)
    (hlen : listMax (prompts.map List.length) ≤ P.maxSeqLen) :
    generate P fwd sampler prompts maxGen temp topP echo
      = (.ok ((List.range prompts.length).map (fun i =>
          postProcessRow P.eosId (prompts.getD i []).length maxGen echo
            ((genRun P fwd sampler prompts maxGen temp topP).tokens.getD i []))),
        (genRun P fwd sampler prompts maxGen temp topP).calls) := by
  rw [generate, if_pos hbsz, if_neg hz, if_pos hlen]

/-- The length of the prompt at index `i`, as a member of the length list. -/
theorem getD_length_mem (prompts : List (List Int)) (i : Nat)
    (hi : i < prompts.length) :
    (prompts.getD i []).length ∈ prompts.map List.length := by
  rw [List.getD_eq_getElem _ [] hi]
  exact List.mem_map_of_mem List.length (List.getElem_mem hi)

/-- Every prompt fits inside the decoding window. -/
theorem promptLen_le_totalLen (P : GenParams) (prompts : List (List Int))
    (maxGen : Nat) (i : Nat) (hi : i < prompts.length)
    (hlen : listMax (prompts.map List.length) ≤ P.maxSeqLen) :
    (prompts.getD i []).length ≤ totalLenOf P prompts maxGen := by
  have h1 : (prompts.getD i []).length ≤ listMax (prompts.map List.length) :=
    le_listMax _ _ (getD_length_mem prompts i hi)
  have h2 : listMax (prompts.map List.length) ≤ totalLenOf P prompts maxGen := by
    rw [totalLenOf]
    exact Nat.le_min.mpr ⟨hlen, Nat.le_add_left _ _⟩
  omega

/-- The initial token matrix is well-shaped. -/
theorem initTokens_rowsOk (P : GenParams) (prompts : List (List Int))
    (maxGen : Nat)
    (hlen : listMax (prompts.map List.length) ≤ P.maxSeqLen) :
    RowsOk prompts.length (totalLenOf P prompts maxGen)
      (initTokens P prompts maxGen) := by
  constructor
  · simp [initTokens]
  · intro i hi
    rw [initTokens, getD_map_lt _ _ i [] [] hi]
    simp only [List.length_append, List.length_replicate]
    have := promptLen_le_totalLen P prompts maxGen i hi hlen
    omega

/-- The final token matrix of a run is well-shaped. -/
theorem genRun_rowsOk (P : GenParams) (fwd : Forward) (sampler : Sampler)
    (prompts : List (List Int)) (maxGen : Nat) (temp topP : ℚ)
    (hlen : listMax (prompts.map List.length) ≤ P.maxSeqLen) :
    RowsOk prompts.length (totalLenOf P prompts maxGen)
      (genRun P fwd sampler prompts maxGen temp topP).tokens := by
  rw [genRun]
  exact genLoop_rowsOk prompts.length fwd sampler temp topP P.eosId
    (promptMask P prompts maxGen)
    (totalLenOf P prompts maxGen - listMin (prompts.map List.length))
    (totalLenOf P prompts maxGen)
    (listMin (prompts.map List.length)) _
    (initTokens_rowsOk P prompts maxGen hlen)

/-- Claim C7: each returned sequence's generated length (excluding the
prompt) is at most `maxGenLen`, and its total length (prompt plus
generated tokens) is at most `maxSeqLen`. -/
theorem generate_length_bound (P : GenParams) (fwd : Forward)
    (sampler : Sampler) (prompts : List (List Int)) (maxGen : Nat)
    (temp topP : ℚ) (echo : Bool)
    (hbsz : prompts.length ≤ P.maxBatchSize) (hne : prompts ≠ [])
    (hlen : listMax (prompts.map List.length) ≤ P.maxSeqLen)
    (out : List (List Int)) (calls : Nat)
    (h : generate P fwd sampler prompts maxGen temp topP echo = (.ok out, calls))
    (i : Nat) (hi : i < prompts.length) :
    (out.getD i []).length - (if echo then (prompts.getD i []).length else 0)
        ≤ maxGen
    ∧ (if echo then (out.getD i []).length
        else (prompts.getD i []).length + (out.getD i []).length)
      ≤ P.maxSeqLen := by
  have hz : ¬ prompts.length = 0 := by simpa [List.length_eq_zero] using hne
  rw [generate_ok_form P fwd sampler prompts maxGen temp topP echo hbsz hz hlen]
    at h
  rw [Prod.mk.injEq] at h
  obtain ⟨h1, -⟩ := h
  rw [Except.ok.injEq] at h1
  subst h1
  rw [getD_map_range prompts.length _ i [] hi]
  obtain ⟨-, hrows⟩ :=
    genRun_rowsOk P fwd sampler prompts maxGen temp topP hlen
  have hrowlen := hrows i hi
  have hpp := postProcessRow_length P.eosId (prompts.getD i []).length maxGen
    echo ((genRun P fwd sampler prompts maxGen temp topP).tokens.getD i [])
  rw [hrowlen] at hpp
  have hppa := Nat.le_trans hpp (Nat.min_le_left _ _)
  have hppb := Nat.le_trans hpp (Nat.min_le_right _ _)
  have hple := promptLen_le_totalLen P prompts maxGen i hi hlen
  have htot : totalLenOf P prompts maxGen ≤ P.maxSeqLen := Nat.min_le_left _ _
  cases echo with
  | false =>
    simp only [Bool.false_eq_true, if_false, ite_false] at hppa hppb ⊢
    omega
  | true =>
    simp only [eq_self_iff_true, if_true, ite_true] at hppa hppb ⊢
    omega


/-! Concrete fixtures used to evaluate the embedded functions on closed
inputs. -/

/-- A concrete tokenizer whose decoders report how they were invoked. -/
def tokFix : TokCap :=
  ⟨fun _ _ _ => [1], fun _ => "fromList", fun _ => "fromSingle"⟩

/-- A concrete model emitting logits that argmax to token id 3 (vocabulary
size 4). -/
def fwdFour : Forward := fun _ _ => [[0, 0, 0, 1], [0, 0, 0, 1]]

/-- A concrete model emitting logits that argmax to token id 2 (vocabulary
size 3), for a single-sequence batch. -/
def fwdTwo : Forward := fun _ _ => [[0, 0, 1]]

/-- A concrete model emitting logits that argmax to token id 1 (vocabulary
size 3), for a single-sequence batch. -/
def fwdMid : Forward := fun _ _ => [[0, 1, 0]]

/-- A trivial sampler; since every fixture below runs at temperature 0 the
sampler is never consulted. -/
def trivialSampler : Sampler := fun _ _ _ => []

/-- Fixture parameters: room for ten positions, pad id -1, eos id -2. -/
def paramsA : GenParams := ⟨10, 4, -1, -2⟩

/-- Fixture parameters where the eos id 2 is a reachable token id. -/
def paramsB : GenParams := ⟨5, 4, -1, 2⟩

/-! Helper lemmas. -/

/-- Setting an index to the value already there leaves a list unchanged. -/
theorem set_getD_self {α : Type} (l : List α) (n : Nat) (d : α) :
    l.set n (l.getD n d) = l := by
  induction l generalizing n with
  | nil => simp
  | cons a l ih =>
    cases n with
    | zero => simp
    | succ n => simpa [List.set, List.getD] using ih n

/-- Setting at or beyond position `m` does not change the first `m`
elements. -/
theorem take_set_of_le {α : Type} (l : List α) (n m : Nat) (v : α)
    (h : m ≤ n) : (l.set n v).take m = l.take m := by
  induction l generalizing n m with
  | nil => simp
  | cons a l ih =>
    cases n with
    | zero =>
      have hm : m = 0 := Nat.le_zero.mp h
      subst hm; simp
    | succ n =>
      cases m with
      | zero => simp
      | succ m =>
        have hm : m ≤ n := Nat.succ_le_succ_iff.mp h
        simp [List.set, ih n m hm]

/-- `takeWhile` does not disturb a prefix on which the predicate holds. -/
theorem takeWhile_take_of_all {α : Type} (p : α → Bool) (l : List α) (n : Nat)
    (h : ∀ x ∈ l.take n, p x = true) : (l.takeWhile p).take n = l.take n := by
  induction l generalizing n with
  | nil => simp
  | cons a l ih =>
    cases n with
    | zero => simp
    | succ n =>
      have ha : p a = true := h a (by simp)
      have ih' := ih n (fun x hx => h x (by simp [hx]))
      simp [List.takeWhile_cons, ha, ih']

/-- With temperature 0 the decoding loop never consults the sampler or the
top-p threshold. -/
theorem genLoop_zero_temp (bsz : Nat) (fwd : Forward) (sampler : Sampler)
    (topP : ℚ) (eosId : Int) (mask : List (List Bool)) (fuel cur : Nat)
    (st : LoopSt) :
    genLoop bsz fwd sampler 0 topP eosId mask fuel cur st
      = genLoop bsz fwd trivialSampler 0 0 eosId mask fuel cur st := by
  induction fuel generalizing cur st with
  | zero => rfl
  | succ fuel ih =>
    simp only [genLoop]
    have hstep : stepOnce bsz fwd sampler 0 topP eosId mask cur st
        = stepOnce bsz fwd trivialSampler 0 0 eosId mask cur st := by
      simp [stepOnce, lt_irrefl]
    rw [hstep]
    by_cases h :
        (stepOnce bsz fwd trivialSampler 0 0 eosId mask cur st).eosReached.all
          (fun b => b) = true
    · simp [h]
    · simp [h, ih]

/-- Claim C1: the spec says that a dialog violating the alternation rule
(some even-position message not `user`, or some odd-position message not
`assistant`), or ending in a non-`user` message, raises `DialogOrderError`;
in particular `[{user,"a"},{user,"b"}]` and any assistant-ending dialog.
The code disagrees: its check is `not all(even is user) and all(odd is
assistant)` — `not` binds before `and` — so `[{user,"a"},{user,"b"}]`
passes validation and is encoded successfully, and an assistant-ending
dialog trips the bare `assert` (an `AssertionError`), not
`DialogOrderError`.  This theorem evaluates the encoder at both failing
inputs. -/
theorem dialog_order_check_actual (tok : TokCap) :
    (encodeDialog tok [⟨"user", "a"⟩, ⟨"user", "b"⟩]).isOk = true ∧
    encodeDialog tok [⟨"user", "a"⟩, ⟨"assistant", "b"⟩]
      = .error .lastNotUser := by
  exact ⟨rfl, rfl⟩

/-- Claim C2: the spec says system folding keeps every message after the
first two in its original position.  The code disagrees: it rebinds
`dialog` to the one-element merged list before iterating `dialog[2::]`,
so that slice is taken of the new singleton list and is empty — every
message after the first two is dropped.  This theorem evaluates the fold
at a four-message dialog and shows the result is the singleton merged
message. -/
theorem fold_system_drops_tail :
    foldSystem [⟨"system", "s"⟩, ⟨"user", "u"⟩, ⟨"assistant", "a"⟩,
        ⟨"user", "v"⟩]
      = some [⟨"user", B_SYS ++ "s" ++ E_SYS ++ "u"⟩] := rfl

/-- Claim C8: encoding `[{system, s}, {user, u}]` produces exactly the same
prompt token sequence as encoding `[{user, system-open ++ s ++
system-close ++ u}]` directly, for every tokenizer and every pair of
contents. -/
theorem dialog_fold_encode_eq (tok : TokCap) (s u : String) :
    encodeDialog tok [⟨"system", s⟩, ⟨"user", u⟩]
      = encodeDialog tok [⟨"user", B_SYS ++ s ++ E_SYS ++ u⟩] := rfl

/-- Claim C6: at temperature 0, `generate` is deterministic — its output
does not depend on the sampler (where all randomness lives) nor on the
top-p threshold, because the arg-max branch is taken at every step. -/
theorem generate_greedy_deterministic (P : GenParams) (fwd : Forward)
    (s1 s2 : Sampler) (prompts : List (List Int)) (maxGen : Nat)
    (topP1 topP2 : ℚ) (echo : Bool) :
    generate P fwd s1 prompts maxGen 0 topP1 echo
      = generate P fwd s2 prompts maxGen 0 topP2 echo := by
  simp only [generate, genRun, genLoop_zero_temp]

/-- Claim C4: under the batch-size precondition, a batch whose longest
prompt exceeds `maxSeqLen` makes `generate` return `promptTooLong` having
performed zero forward calls and produced no output, while a batch whose
prompts are all within the limit never produces `promptTooLong`. -/
theorem generate_rejects_long_prompt (P : GenParams) (fwd : Forward)
    (sampler : Sampler) (prompts : List (List Int)) (maxGen : Nat)
    (temp topP : ℚ) (echo : Bool)
    (hbsz : prompts.length ≤ P.maxBatchSize) (hne : prompts ≠ []) :
    (¬ listMax (prompts.map List.length) ≤ P.maxSeqLen →
      generate P fwd sampler prompts maxGen temp topP echo
        = (.error .promptTooLong, 0)) ∧
    (listMax (prompts.map List.length) ≤ P.maxSeqLen →
      ((generate P fwd sampler prompts maxGen temp topP echo).1).isOk
        = true) := by
  have hz : ¬ prompts.length = 0 := by
    simpa [List.length_eq_zero] using hne
  constructor
  · intro hlong
    simp [generate, hbsz, hz, hlong]
  · intro hok
    simp only [generate, hbsz, hz, hok, if_true, if_false, ite_true, ite_false,
      not_false_iff]
    rfl

/-- Witness for `generate_rejects_long_prompt` at a concrete over-long
batch: one two-token prompt against a maximum sequence length of 1. -/
theorem generate_rejects_long_prompt_witness :
    ([[1, 2]] : List (List Int)).length ≤ (GenParams.mk 1 4 (-1) (-2)).maxBatchSize ∧
    ([[1, 2]] : List (List Int)) ≠ [] ∧
    ((¬ listMax (([[1, 2]] : List (List Int)).map List.length)
        ≤ (GenParams.mk 1 4 (-1) (-2)).maxSeqLen →
      generate (GenParams.mk 1 4 (-1) (-2)) fwdTwo trivialSampler [[1, 2]] 1 0 0 false
        = (.error .promptTooLong, 0)) ∧
    (listMax (([[1, 2]] : List (List Int)).map List.length)
        ≤ (GenParams.mk 1 4 (-1) (-2)).maxSeqLen →
      ((generate (GenParams.mk 1 4 (-1) (-2)) fwdTwo trivialSampler
          [[1, 2]] 1 0 0 false).1).isOk = true)) :=
  ⟨by decide, by decide,
    generate_rejects_long_prompt (GenParams.mk 1 4 (-1) (-2)) fwdTwo
      trivialSampler [[1, 2]] 1 0 0 false (by decide) (by decide)⟩

/-- `exceptMapM` succeeds with one output per input. -/
theorem exceptMapM_ok_length {α β ε : Type} (f : α → Except ε β) (l : List α)
    (r : List β) (h : exceptMapM f l = .ok r) : r.length = l.length := by
  induction l generalizing r with
  | nil =>
    simp only [exceptMapM] at h
    cases h; rfl
  | cons a l ih =>
    simp only [exceptMapM] at h
    cases hfa : f a with
    | error e => rw [hfa] at h; cases h
    | ok b =>
      rw [hfa] at h
      cases hml : exceptMapM f l with
      | error e => rw [hml] at h; cases h
      | ok rs =>
        rw [hml] at h
        cases h
        simp [ih rs hml]

/-- `exceptMapM` applies `f` pointwise: the `i`-th output is the image of
the `i`-th input. -/
theorem exceptMapM_ok_getD {α β ε : Type} (f : α → Except ε β) (l : List α)
    (r : List β) (d : α) (d' : β) (h : exceptMapM f l = .ok r) (i : Nat)
    (hi : i < l.length) : f (l.getD i d) = .ok (r.getD i d') := by
  induction l generalizing r i with
  | nil => simp at hi
  | cons a l ih =>
    simp only [exceptMapM] at h
    cases hfa : f a with
    | error e => rw [hfa] at h; cases h
    | ok b =>
      rw [hfa] at h
      cases hml : exceptMapM f l with
      | error e => rw [hml] at h; cases h
      | ok rs =>
        rw [hml] at h
        cases h
        cases i with
        | zero => simpa using hfa
        | succ i =>
          have hi' : i < l.length := by simpa using hi
          simpa using ih rs hml i hi'

/-- If every element maps to `.ok` or to the error `e`, and some element
maps to the error `e`, then `exceptMapM` returns the error `e`. -/
theorem exceptMapM_error_of_mem {α β ε : Type} (f : α → Except ε β) (e : ε)
    (l : List α)
    (hall : ∀ x ∈ l, f x = .error e ∨ ∃ y, f x = .ok y)
    (hex : ∃ x ∈ l, f x = .error e) : exceptMapM f l = .error e := by
  induction l with
  | nil => simp at hex
  | cons a l ih =>
    rcases hall a (by simp) with ha | ⟨y, hy⟩
    · simp [exceptMapM, ha]
    · rcases hex with ⟨x, hx, hfx⟩
      have hxl : x ∈ l := by
        rcases List.mem_cons.mp hx with rfl | hxl
        · rw [hy] at hfx; cases hfx
        · exact hxl
      have hrec := ih (fun z hz => hall z (by simp [hz])) ⟨x, hxl, hfx⟩
      simp [exceptMapM, hy, hrec]

/-- A nonempty token list always decodes. -/
theorem tokenizerDecode_cons (tok : TokCap) (a : Int) (ts : List Int) :
    ∃ s, tokenizerDecode tok (a :: ts) = some s := by
  unfold tokenizerDecode
  by_cases h : (a :: ts).length > 1
  · exact ⟨tok.decodeList (a :: ts), by rw [if_pos h]⟩
  · exact ⟨tok.decodeSingle a, by rw [if_neg h]; rfl⟩

/-- Claim C10: `Tokenizer.decode` is partial at the empty input — the code
passes `t[0]` to the underlying decoder whenever `len(t)` is not greater
than 1, so the empty list raises an index error (`none`) instead of
returning the empty string; consequently a text completion whose generated
token slice is empty cannot be decoded and the assembler fails. -/
theorem tokenizer_decode_empty_fails (tok : TokCap) :
    tokenizerDecode tok [] = none ∧
    (∀ x : Int, tokenizerDecode tok [x] = some (tok.decodeSingle x)) ∧
    (∀ (fwd : Forward) (sampler : Sampler) (P : GenParams)
        (prompts : List String) (mg : Option Nat) (temp topP : ℚ)
        (gen : List (List Int)),
      (generate P fwd sampler (prompts.map (fun x => tok.encode x true false))
          (mg.getD (P.maxSeqLen - 1)) temp topP false).1 = .ok gen →
      [] ∈ gen →
      textCompletion tok fwd sampler P prompts mg temp topP false
        = .error .decodeEmpty) := by
  refine ⟨rfl, fun x => rfl, ?_⟩
  intro fwd sampler P prompts mg temp topP gen hgen hmem
  simp only [textCompletion, hgen]
  apply exceptMapM_error_of_mem
  · intro t ht
    cases t with
    | nil => left; rfl
    | cons a ts =>
      right
      obtain ⟨s, hs⟩ := tokenizerDecode_cons tok a ts
      exact ⟨s, by simp [hs]⟩
  · exact ⟨[], hmem, rfl⟩

/-- Witness for `tokenizer_decode_empty_fails`: a model that immediately
emits the eos id produces an empty generated slice, and the assembler
fails to decode it. -/
theorem tokenizer_decode_empty_fails_witness :
    ((generate paramsB fwdTwo trivialSampler
        (["hi"].map (fun x => tokFix.encode x true false))
        ((some 2).getD (paramsB.maxSeqLen - 1)) 0 0 false).1
      = .ok [[]]) ∧
    ([] ∈ [([] : List Int)]) ∧
    textCompletion tokFix fwdTwo trivialSampler paramsB ["hi"] (some 2) 0 0 false
      = .error .decodeEmpty :=
  ⟨by decide, by decide,
    (tokenizer_decode_empty_fails tokFix).2.2 fwdTwo trivialSampler paramsB
      ["hi"] (some 2) 0 0 [[]] (by decide) (by decide)⟩

/-- Claim C5 (amended): `sample_top_p` zeroes exactly those sorted entries
whose cumulative sum up to but excluding themselves exceeds `p`;
consequently every sorted rank the multinomial draw can return has
cumulative mass *up to but excluding itself* at most `p` (the claim's
stronger bound through the smallest covering prefix fails on exact
ties — see the counterexample); and for `p` at or above 1 no entry of a
probability vector is zeroed. -/
theorem sample_top_p_policy (dist : List ℚ) (p : ℚ) (k : Nat)
    (hnn : ∀ x ∈ dist, 0 ≤ x) (hsum : dist.sum = 1) :
    ((maskedProbs dist p).getD k 0
        = if p < (cumsum (probsSort dist)).getD k 0 - (probsSort dist).getD k 0
          then 0 else (probsSort dist).getD k 0) ∧
    (canDraw dist p k →
      (cumsum (probsSort dist)).getD k 0 - (probsSort dist).getD k 0 ≤ p) ∧
    (1 ≤ p → (maskedProbs dist p).getD k 0 = (probsSort dist).getD k 0) := by
  have hnn' : ∀ x ∈ probsSort dist, 0 ≤ x := fun x hx =>
    hnn x ((probsSort_perm dist).mem_iff.mp hx)
  refine ⟨maskedProbs_getD dist p k, ?_, ?_⟩
  · intro hdraw
    by_contra hgt
    push_neg at hgt
    have hm : (maskedProbs dist p).getD k 0 = 0 := by
      rw [maskedProbs_getD, if_pos hgt]
    rw [canDraw] at hdraw
    by_cases hk : k < (maskedProbs dist p).length
    · have hr : (renormed dist p).getD k 0
          = (maskedProbs dist p).getD k 0 / (maskedProbs dist p).sum := by
        rw [renormed, getD_map_lt _ _ k 0 _ hk]
      rw [hr, hm, zero_div] at hdraw
      exact lt_irrefl 0 hdraw
    · have hr : (renormed dist p).getD k 0 = 0 := by
        apply List.getD_eq_default
        simp only [renormed, List.length_map]
        omega
      rw [hr] at hdraw
      exact lt_irrefl 0 hdraw
  · intro hp
    rw [maskedProbs_getD]
    apply if_neg
    by_cases hk : k < (probsSort dist).length
    · rw [cumsum_sub_self dist k hk]
      have hd : 0 ≤ ((probsSort dist).drop k).sum :=
        List.sum_nonneg (fun x hx => hnn' x (List.mem_of_mem_drop hx))
      have hts := List.sum_take_add_sum_drop (probsSort dist) k
      have h2 : (probsSort dist).sum = 1 := by
        rw [(probsSort_perm dist).sum_eq, hsum]
      exact not_lt.mpr (by linarith)
    · have h2 : (probsSort dist).getD k 0 = 0 :=
        List.getD_eq_default _ _ (by omega)
      have h3 : (cumsum (probsSort dist)).getD k 0 = 0 :=
        List.getD_eq_default _ _ (by simp only [cumsum, length_cumsumFrom]; omega)
      rw [h2, h3]
      have : ¬ p < 0 := not_lt.mpr (by linarith)
      simpa using this

/-- Witness for `sample_top_p_policy` at the one-point distribution with
threshold 1. -/
theorem sample_top_p_policy_witness :
    (∀ x ∈ [(1:ℚ)], 0 ≤ x) ∧ ([(1:ℚ)].sum = 1) ∧
    (((maskedProbs [(1:ℚ)] 1).getD 0 0
        = if (1:ℚ) < (cumsum (probsSort [(1:ℚ)])).getD 0 0
              - (probsSort [(1:ℚ)]).getD 0 0
          then 0 else (probsSort [(1:ℚ)]).getD 0 0) ∧
      (canDraw [(1:ℚ)] 1 0 →
        (cumsum (probsSort [(1:ℚ)])).getD 0 0
          - (probsSort [(1:ℚ)]).getD 0 0 ≤ 1) ∧
      ((1:ℚ) ≤ 1 → (maskedProbs [(1:ℚ)] 1).getD 0 0
          = (probsSort [(1:ℚ)]).getD 0 0)) :=
  ⟨by simp, by simp, sample_top_p_policy [(1:ℚ)] 1 0 (by simp) (by simp)⟩

/-- Counterexample to claim C5 as stated: for the probability vector
`[1/2, 1/2]` with `p = 1/2`, sorted rank 1 survives the mask (its
cumulative sum excluding itself is `1/2`, not strictly above `p`) and so
can be drawn, yet its cumulative rank mass is `1`, strictly above the
smallest prefix mass covering `p`, which is `1/2`. -/
theorem sample_top_p_mass_cex :
    (∀ x ∈ [(1:ℚ)/2, 1/2], 0 ≤ x) ∧ ([(1:ℚ)/2, 1/2].sum = 1) ∧
    canDraw [(1:ℚ)/2, 1/2] (1/2) 1 ∧
    smallestCoveringMass [(1:ℚ)/2, 1/2] (1/2)
      < (cumsum (probsSort [(1:ℚ)/2, 1/2])).getD 1 0 := by
  have hsort : probsSort [(1:ℚ)/2, 1/2] = [1/2, 1/2] := by
    norm_num [probsSort, withIdx, sortDescPairs, insertDesc, List.range_succ]
  have hcs : cumsum [(1:ℚ)/2, 1/2] = [1/2, 1] := by
    norm_num [cumsum, cumsumFrom]
  have hmask : maskedProbs [(1:ℚ)/2, 1/2] (1/2) = [1/2, 1/2] := by
    rw [maskedProbs, hsort, hcs]
    norm_num [List.zipWith]
  refine ⟨by norm_num, by norm_num, ?_, ?_⟩
  · rw [canDraw, renormed, hmask]
    norm_num [List.getD_cons_succ, List.getD_cons_zero]
  · rw [smallestCoveringMass, hsort, hcs]
    norm_num [List.filter_cons, List.getD_cons_succ, List.getD_cons_zero]

/-- One loop step never changes the first `promptLen` entries of a row
whose prompt positions are all mask-protected. -/
theorem stepOnce_take (bsz : Nat) (fwd : Forward) (sampler : Sampler)
    (temp topP : ℚ) (eosId : Int) (mask : List (List Bool)) (cur : Nat)
    (st : LoopSt) (prompts : List (List Int))
    (hmask : ∀ i c, i < bsz → c < (prompts.getD i []).length →
      (mask.getD i []).getD c false = true)
    (i : Nat) (hi : i < bsz) :
    ((stepOnce bsz fwd sampler temp topP eosId mask cur st).tokens.getD i
        []).take (prompts.getD i []).length
      = ((st.tokens.getD i []).take (prompts.getD i []).length) := by
  simp only [stepOnce]
  rw [getD_map_range bsz _ i [] hi, getD_map_range bsz _ i 0 hi]
  by_cases hc : cur < (prompts.getD i []).length
  · simp only [hmask i cur hi hc, eq_self_iff_true, if_true, ite_true]
    rw [set_getD_self]
  · rw [take_set_of_le _ _ _ _ (by omega)]

/-- The whole loop never changes the first `promptLen` entries of a row
whose prompt positions are all mask-protected. -/
theorem genLoop_take (bsz : Nat) (fwd : Forward) (sampler : Sampler)
    (temp topP : ℚ) (eosId : Int) (mask : List (List Bool))
    (prompts : List (List Int))
    (hmask : ∀ i c, i < bsz → c < (prompts.getD i []).length →
      (mask.getD i []).getD c false = true)
    (fuel : Nat) :
    ∀ (cur : Nat) (st : LoopSt) (i : Nat), i < bsz →
    ((genLoop bsz fwd sampler temp topP eosId mask fuel cur st).tokens.getD i
        []).take (prompts.getD i []).length
      = (st.tokens.getD i []).take (prompts.getD i []).length := by
  induction fuel with
  | zero => intro cur st i hi; rfl
  | succ fuel ih =>
    intro cur st i hi
    rw [genLoop]
    by_cases hall :
        (stepOnce bsz fwd sampler temp topP eosId mask cur
          st).eosReached.all (fun b => b) = true
    · simp only [hall, if_true]
      exact stepOnce_take bsz fwd sampler temp topP eosId mask cur st prompts
        hmask i hi
    · simp only [hall, if_false, Bool.false_eq_true, ite_false]
      rw [ih (cur + 1) _ i hi]
      exact stepOnce_take bsz fwd sampler temp topP eosId mask cur st prompts
        hmask i hi

/-- A row of the initial matrix starts with its prompt. -/
theorem initTokens_take (P : GenParams) (prompts : List (List Int))
    (maxGen : Nat) (i : Nat) (hi : i < prompts.length) :
    ((initTokens P prompts maxGen).getD i []).take
        (prompts.getD i []).length
      = prompts.getD i [] := by
  rw [initTokens, getD_map_lt _ _ i [] [] hi]
  exact List.take_left _ _

/-- Prompt positions of pad-free prompts are protected by the mask. -/
theorem promptMask_true (P : GenParams) (prompts : List (List Int))
    (maxGen : Nat)
    (hlen : listMax (prompts.map List.length) ≤ P.maxSeqLen)
    (hpad : ∀ t ∈ prompts, P.padId ∉ t)
    (i c : Nat) (hi : i < prompts.length)
    (hc : c < (prompts.getD i []).length) :
    ((promptMask P prompts maxGen).getD i []).getD c false = true := by
  have hrows := initTokens_rowsOk P prompts maxGen hlen
  have hcl : c < ((initTokens P prompts maxGen).getD i []).length := by
    rw [hrows.2 i hi]
    have := promptLen_le_totalLen P prompts maxGen i hi hlen
    omega
  rw [promptMask,
    getD_map_lt _ _ i [] [] (by simpa [initTokens] using hi),
    getD_map_lt _ _ c P.padId false hcl,
    initTokens, getD_map_lt _ _ i [] [] hi]
  have hget : ((prompts.getD i [] ++
      List.replicate (totalLenOf P prompts maxGen
        - (prompts.getD i []).length) P.padId).getD c P.padId)
      = (prompts.getD i []).getD c P.padId := by
    rw [List.getD_eq_getElem _ P.padId
        (by rw [List.length_append, List.length_replicate]; omega),
      List.getD_eq_getElem _ P.padId hc]
    exact List.getElem_append_left hc
  rw [hget]
  have hmem : (prompts.getD i []).getD c P.padId ∈ prompts.getD i [] := by
    rw [List.getD_eq_getElem _ P.padId hc]
    exact List.getElem_mem hc
  have hpmem : prompts.getD i [] ∈ prompts := by
    rw [List.getD_eq_getElem _ [] hi]
    exact List.getElem_mem hi
  have hne : (prompts.getD i []).getD c P.padId ≠ P.padId :=
    fun hcontra => hpad _ hpmem (hcontra ▸ hmem)
  exact bne_iff_ne.mpr hne

/-- With echo, post-processing keeps an eos-free prompt prefix intact. -/
theorem postProcessRow_take (eosId : Int) (promptLen maxGen : Nat)
    (row : List Int)
    (hno : ∀ x ∈ row.take promptLen, (x != eosId) = true) :
    (postProcessRow eosId promptLen maxGen true row).take promptLen
      = row.take promptLen := by
  rw [postProcessRow]
  simp only [if_pos rfl, eq_self_iff_true, if_true, ite_true, Nat.sub_zero,
    List.drop_zero]
  have htt : (row.take (promptLen + maxGen)).take promptLen
      = row.take promptLen := by
    rw [List.take_take]
    congr 1
    omega
  by_cases hmem : eosId ∈ row.take (promptLen + maxGen)
  · rw [if_pos hmem]
    rw [takeWhile_take_of_all _ _ promptLen
      (fun x hx => hno x (by rw [htt] at hx; exact hx))]
    exact htt
  · rw [if_neg hmem]
    exact htt

/-- Claim C3 (amended): with echo, each output row starts with its prompt,
provided no prompt token equals `padId` (those positions would lose the
protection of the `tokens != pad_id` mask) or `eosId` (the slice would be
truncated at it). -/
theorem generate_prompt_preserved (P : GenParams) (fwd : Forward)
    (sampler : Sampler) (prompts : List (List Int)) (maxGen : Nat)
    (temp topP : ℚ)
    (hbsz : prompts.length ≤ P.maxBatchSize) (hne : prompts ≠ [])
    (hlen : listMax (prompts.map List.length) ≤ P.maxSeqLen)
    (hpad : ∀ t ∈ prompts, P.padId ∉ t)
    (heos : ∀ t ∈ prompts, P.eosId ∉ t)
    (out : List (List Int)) (calls : Nat)
    (h : generate P fwd sampler prompts maxGen temp topP true = (.ok out, calls))
    (i : Nat) (hi : i < prompts.length) :
    (out.getD i []).take (prompts.getD i []).length = prompts.getD i [] := by
  have hz : ¬ prompts.length = 0 := by simpa [List.length_eq_zero] using hne
  rw [generate_ok_form P fwd sampler prompts maxGen temp topP true hbsz hz hlen]
    at h
  rw [Prod.mk.injEq] at h
  obtain ⟨h1, -⟩ := h
  rw [Except.ok.injEq] at h1
  subst h1
  rw [getD_map_range prompts.length _ i [] hi]
  have hrowtake :
      ((genRun P fwd sampler prompts maxGen temp topP).tokens.getD i []).take
        (prompts.getD i []).length = prompts.getD i [] := by
    rw [genRun]
    rw [genLoop_take prompts.length fwd sampler temp topP P.eosId
      (promptMask P prompts maxGen) prompts
      (fun i2 c hi2 hc => promptMask_true P prompts maxGen hlen hpad i2 c hi2 hc)
      _ _ _ i hi]
    exact initTokens_take P prompts maxGen i hi
  have hpmem : prompts.getD i [] ∈ prompts := by
    rw [List.getD_eq_getElem _ [] hi]
    exact List.getElem_mem hi
  have hno : ∀ x ∈ ((genRun P fwd sampler prompts maxGen temp
      topP).tokens.getD i []).take (prompts.getD i []).length,
      (x != P.eosId) = true := by
    intro x hx
    rw [hrowtake] at hx
    exact bne_iff_ne.mpr (fun hcontra => heos _ hpmem (hcontra ▸ hx))
  rw [postProcessRow_take P.eosId _ maxGen _ hno]
  exact hrowtake

/-- Witness for `generate_prompt_preserved` at a concrete pad-free,
eos-free prompt. -/
theorem generate_prompt_preserved_witness :
    ([[1, 2]] : List (List Int)).length ≤ paramsA.maxBatchSize ∧
    ([[1, 2]] : List (List Int)) ≠ [] ∧
    listMax (([[1, 2]] : List (List Int)).map List.length)
      ≤ paramsA.maxSeqLen ∧
    (∀ t ∈ ([[1, 2]] : List (List Int)), paramsA.padId ∉ t) ∧
    (∀ t ∈ ([[1, 2]] : List (List Int)), paramsA.eosId ∉ t) ∧
    generate paramsA fwdTwo trivialSampler [[1, 2]] 1 0 0 true
      = (.ok [[1, 2, 2]], 1) ∧
    (([[1, 2, 2]] : List (List Int)).getD 0 []).take
        (([[1, 2]] : List (List Int)).getD 0 []).length
      = ([[1, 2]] : List (List Int)).getD 0 [] :=
  ⟨by decide, by decide, by decide, by decide, by decide, by decide,
    generate_prompt_preserved paramsA fwdTwo trivialSampler [[1, 2]] 1 0 0
      (by decide) (by decide) (by decide) (by decide) (by decide)
      [[1, 2, 2]] 1 (by decide) 0 (by decide)⟩

/-- Counterexample to claim C3 as stated ("whatever token ids the prompt
contains"): a prompt containing the pad id loses mask protection there, and
the decoded batch overwrites that position — the echoed output's prefix
differs from the prompt. -/
theorem generate_prompt_cex :
    (generate paramsA fwdFour trivialSampler [[9], [5, -1]] 1 0 0 true).1
      = .ok [[9, 3], [5, 3, 3]] ∧
    ¬ ((([[9, 3], [5, 3, 3]] : List (List Int)).getD 1 []).take
          (([[9], [5, -1]] : List (List Int)).getD 1 []).length
        = ([[9], [5, -1]] : List (List Int)).getD 1 []) := by
  exact ⟨by decide, by decide⟩

/-- Witness for `generate_length_bound` at a concrete batch. -/
theorem generate_length_bound_witness :
    ([[1, 2]] : List (List Int)).length ≤ paramsA.maxBatchSize ∧
    ([[1, 2]] : List (List Int)) ≠ [] ∧
    listMax (([[1, 2]] : List (List Int)).map List.length)
      ≤ paramsA.maxSeqLen ∧
    generate paramsA fwdTwo trivialSampler [[1, 2]] 1 0 0 false
      = (.ok [[2]], 1) ∧
    ((([[2]] : List (List Int)).getD 0 []).length
        - (if false then (([[1, 2]] : List (List Int)).getD 0 []).length
            else 0) ≤ 1
      ∧ (if false then (([[2]] : List (List Int)).getD 0 []).length
          else (([[1, 2]] : List (List Int)).getD 0 []).length
            + (([[2]] : List (List Int)).getD 0 []).length)
        ≤ paramsA.maxSeqLen) :=
  ⟨by decide, by decide, by decide, by decide,
    generate_length_bound paramsA fwdTwo trivialSampler [[1, 2]] 1 0 0 false
      (by decide) (by decide) (by decide) [[2]] 1 (by decide) 0 (by decide)⟩


/-- A successful `generate` returns one output row per prompt. -/
theorem generate_ok_length (P : GenParams) (fwd : Forward) (sampler : Sampler)
    (prompts : List (List Int)) (maxGen : Nat) (temp topP : ℚ) (echo : Bool)
    (gen : List (List Int))
    (h : (generate P fwd sampler prompts maxGen temp topP echo).1 = .ok gen) :
    gen.length = prompts.length := by
  rw [generate] at h
  by_cases h1 : prompts.length ≤ P.maxBatchSize
  · rw [if_pos h1] at h
    by_cases h2 : prompts.length = 0
    · rw [if_pos h2] at h
      cases h
    · rw [if_neg h2] at h
      by_cases h3 : listMax (prompts.map List.length) ≤ P.maxSeqLen
      · rw [if_pos h3] at h
        rw [Except.ok.injEq] at h
        rw [← h]
        simp
      · rw [if_neg h3] at h
        cases h
  · rw [if_neg h1] at h
    cases h

/-- Claim C9: for every dialog batch accepted by `chat_completion`,
generation still runs for every dialog (the batched `generate` call
succeeds on the encoded prompts, one output row per dialog), and the
returned content of dialog `i` is the fixed refusal string whenever some
message of that dialog contains a reserved control tag — regardless of the
model and sampler — while a tag-free dialog's content is exactly the
decoded generation. -/
theorem chat_unsafe_substitution (tok : TokCap) (fwd : Forward)
    (sampler : Sampler) (P : GenParams) (dialogs : List (List Message))
    (mg : Option Nat) (temp topP : ℚ) (res : List ChatPrediction)
    (h : chatCompletion tok fwd sampler P dialogs mg temp topP = .ok res)
    (i : Nat) (hi : i < dialogs.length) :
    ∃ (prompts : List (List Int)) (gen : List (List Int)),
      exceptMapM (fun d => (encodeDialog tok d).mapError AsmError.chat) dialogs
        = .ok prompts ∧
      (generate P fwd sampler prompts (mg.getD (P.maxSeqLen - 1)) temp topP
        false).1 = .ok gen ∧
      gen.length = dialogs.length ∧
      res.length = dialogs.length ∧
      (dialogUnsafe (dialogs.getD i []) = true →
        (res.getD i ⟨""⟩).content = UNSAFE_ERROR) ∧
      (dialogUnsafe (dialogs.getD i []) = false →
        some (res.getD i ⟨""⟩).content
          = tokenizerDecode tok (gen.getD i [])) := by
  rw [chatCompletion] at h
  cases hmap : exceptMapM
      (fun d => (encodeDialog tok d).mapError AsmError.chat) dialogs with
  | error e => rw [hmap] at h; cases h
  | ok prompts =>
  simp only [hmap] at h
  cases hgen : (generate P fwd sampler prompts (mg.getD (P.maxSeqLen - 1))
      temp topP false).1 with
  | error e => simp only [hgen] at h; cases h
  | ok gen =>
  simp only [hgen] at h
  refine ⟨prompts, gen, rfl, hgen, ?_, ?_, ?_, ?_⟩
  · rw [generate_ok_length P fwd sampler prompts _ temp topP false gen hgen,
      exceptMapM_ok_length _ dialogs prompts hmap]
  · rw [exceptMapM_ok_length _ _ res h]
    simp only [List.length_zip, List.length_map]
    rw [generate_ok_length P fwd sampler prompts _ temp topP false gen hgen,
      exceptMapM_ok_length _ dialogs prompts hmap]
    omega
  all_goals {
    have hglen : gen.length = dialogs.length := by
      rw [generate_ok_length P fwd sampler prompts _ temp topP false gen hgen,
        exceptMapM_ok_length _ dialogs prompts hmap]
    have hzlen : i < (gen.zip (dialogs.map dialogUnsafe)).length := by
      simp only [List.length_zip, List.length_map]
      omega
    have hstep := exceptMapM_ok_getD _ _ res ([], false) ⟨""⟩ h i hzlen
    have hpair : (gen.zip (dialogs.map dialogUnsafe)).getD i ([], false)
        = (gen.getD i [], dialogUnsafe (dialogs.getD i [])) := by
      rw [List.getD_eq_getElem _ _ hzlen, List.getElem_zip]
      rw [List.getD_eq_getElem gen [] (by omega),
        List.getD_eq_getElem dialogs [] hi]
      rw [List.getElem_map]
    rw [hpair] at hstep
    intro hcase
    rw [hcase] at hstep
    first
    | · simp only [if_pos rfl, ite_true] at hstep
        rw [Except.ok.injEq] at hstep
        rw [← hstep]
    | · simp only [Bool.false_eq_true, if_false, ite_false] at hstep
        cases hdec : tokenizerDecode tok (gen.getD i []) with
        | none => rw [hdec] at hstep; cases hstep
        | some sdec =>
          rw [hdec] at hstep
          rw [Except.ok.injEq] at hstep
          rw [← hstep]
  }

/-- Witness for `chat_unsafe_substitution`: a dialog whose content contains
the literal `[INST]` tag yields the fixed refusal string even though
generation ran. -/
theorem chat_unsafe_substitution_witness :
    chatCompletion tokFix fwdMid trivialSampler paramsB
        [[⟨"user", "[INST] hi"⟩]] none 0 0
      = .ok [⟨UNSAFE_ERROR⟩] ∧
    (0 : Nat) < ([[⟨"user", "[INST] hi"⟩]] : List (List Message)).length ∧
    (∃ (prompts : List (List Int)) (gen : List (List Int)),
      exceptMapM (fun d => (encodeDialog tokFix d).mapError AsmError.chat)
          [[⟨"user", "[INST] hi"⟩]] = .ok prompts ∧
      (generate paramsB fwdMid trivialSampler prompts
        ((none : Option Nat).getD (paramsB.maxSeqLen - 1)) 0 0 false).1
        = .ok gen ∧
      gen.length = ([[⟨"user", "[INST] hi"⟩]] : List (List Message)).length ∧
      ([⟨UNSAFE_ERROR⟩] : List ChatPrediction).length
        = ([[⟨"user", "[INST] hi"⟩]] : List (List Message)).length ∧
      (dialogUnsafe (([[⟨"user", "[INST] hi"⟩]] : List (List Message)).getD 0
          []) = true →
        (([⟨UNSAFE_ERROR⟩] : List ChatPrediction).getD 0 ⟨""⟩).content
          = UNSAFE_ERROR) ∧
      (dialogUnsafe (([[⟨"user", "[INST] hi"⟩]] : List (List Message)).getD 0
          []) = false →
        some (([⟨UNSAFE_ERROR⟩] : List ChatPrediction).getD 0 ⟨""⟩).content
          = tokenizerDecode tokFix (gen.getD 0 []))) :=
  ⟨by decide, by decide,
    chat_unsafe_substitution tokFix fwdMid trivialSampler paramsB
      [[⟨"user", "[INST] hi"⟩]] none 0 0 [⟨UNSAFE_ERROR⟩] (by decide) 0
      (by decide)⟩

end Llama
